import Mathlib

/-!
Shallow embedding of the core logic of two components of the
`core-components` repository:

* `VirtualOptionsList`
  (`src/packages/select/src/components/virtual-options-list/Component.tsx`) —
  scroll-synchronisation effects, cyclic wrap-around, group flattening and
  the group-start-index map, the height-invalidation key and the empty state.
* `Popover` (`src/packages/popover/src/Component.tsx`) — assembly of the
  positioning-engine modifier list, the resize/width re-sync path and the
  write-once `update` ref.

React hooks are embedded as pure functions of their inputs: a `useEffect`
whose dependency is a value v becomes a function of the previous and the
current v, returning the list of imperative commands the effect issues; a
`useMemo` with dependency list `[options]` becomes a pure function of
`options`; a mutable ref cell becomes explicit state passed in and out.
DOM elements and imperative handles are identified by `Nat` ids.
-/

set_option autoImplicit false

namespace CoreComponents

/-- A leaf selectable option (`OptionShape` of the select typings): only the
fields the embedded logic reads are kept — an identifying key and the
`disabled` flag. -/
structure OptionShape where
  key : String
  disabled : Bool
deriving DecidableEq, Repr

/-- An entry of the non-flattened `options` prop: either a single top-level
option or a group (`GroupShape`: a label and an ordered list of options). -/
inductive OptionsItem where
  | single (o : OptionShape)
  | group (label : String) (options : List OptionShape)
deriving DecidableEq, Repr

/-- Modelled from the spec: the `isGroup` util imported from `../../utils`
(not under `src/`) distinguishes a Group ("a named container of Options")
from a leaf Option. -/
def isGroup : OptionsItem → Bool
  | .group _ _ => true
  | .single _ => false

/-- Modelled from the spec: `flatOptions`, "the flattened ordered sequence
produced by expanding Groups in place", is produced outside `src/` and passed
in as a prop. -/
def flattenOptions : List OptionsItem → List OptionShape
  | [] => []
  | .single o :: rest => o :: flattenOptions rest
  | .group _ os :: rest => os ++ flattenOptions rest

/-- JS `Array.prototype.findIndex`: index of the first element satisfying
`p`, or `-1` when none does. -/
def findIndexI {α : Type} (p : α → Bool) : List α → Int
  | [] => -1
  | a :: as =>
    if p a then 0
    else
      let r := findIndexI p as
      if r = -1 then -1 else r + 1

/-- Modelled from the spec: the `lastIndexOf` util imported from
`../../utils` (not under `src/`) returns the index of the last element
satisfying the predicate ("the last non-disabled option"), or `-1`. -/
def lastIndexOfI {α : Type} (p : α → Bool) : List α → Int
  | [] => -1
  | a :: as =>
    let r := lastIndexOfI p as
    if r = -1 then (if p a then 0 else -1) else r + 1

/-- The predicate `notDisabled` of the cyclic-navigation effect
(Component.tsx line 63). -/
def notDisabled (o : OptionShape) : Bool := !o.disabled

/-- An imperative `rowVirtualizer.scrollToIndex` call: the target index and
whether the `align: end` option was passed. -/
structure ScrollCommand where
  index : Int
  alignEnd : Bool
deriving DecidableEq, Repr

/-- Cyclic-navigation effect (Component.tsx lines 62-77), as the list of
scroll commands it issues for a change of highlighted index. Both `if`
branches of the source can fire in one run, in source order; the source's
local consts `firstNonDisabled` and `lastNonDisabled` are inlined. -/
def cyclicNavigationScrolls (flatOptions : List OptionShape)
    (prevHighlightedIndex highlightedIndex : Int) : List ScrollCommand :=
  (if prevHighlightedIndex ≤ findIndexI notDisabled flatOptions ∧
      highlightedIndex = (flatOptions.length : Int) - 1
   then [⟨lastIndexOfI notDisabled flatOptions, false⟩] else [])
  ++
  (if prevHighlightedIndex ≥ lastIndexOfI notDisabled flatOptions ∧
      highlightedIndex = 0
   then [⟨0, false⟩] else [])

/-- Open-transition effect (Component.tsx lines 46-50): on a change of the
`open` flag, if it is now `true`, scroll to the highlighted index with
`align: end`. -/
def openEffectScrolls (prevOpen openFlag : Bool) (highlightedIndex : Int) :
    List ScrollCommand :=
  if prevOpen ≠ openFlag then
    if openFlag then [⟨highlightedIndex, true⟩] else []
  else []

/-- Highlight-follow effect (Component.tsx lines 53-59): on a change of the
highlighted index, skip the `-1` sentinel, and scroll with `align: end` only
when the new index is not among the rendered virtual rows
(`rowVirtualizer.virtualItems`, given here by their indices). -/
def highlightFollowScrolls (virtualItemIndexes : List Nat)
    (prevHighlightedIndex highlightedIndex : Int) : List ScrollCommand :=
  if prevHighlightedIndex = highlightedIndex then []
  else if highlightedIndex = -1 then []
  else if virtualItemIndexes.any (fun i => (i : Int) == highlightedIndex) then []
  else [⟨highlightedIndex, true⟩]

/-- Height-invalidation key (Component.tsx lines 79-88): the value stored by
`setVisibleOptionsInvalidateKey` as a function of the number of rendered
virtual rows and the total flat option count. -/
def visibleOptionsInvalidateKey (virtualItemsLength flatOptionsLength : Nat) : Nat :=
  if virtualItemsLength > 1 then flatOptionsLength else 1

/-- `groupStartIndexes` reduce (Component.tsx lines 99-110), with the running
flat index `currentIndex` and the original-list index made explicit. Entries
are `(flat index, original-list index)`. -/
def groupStartIndexesAux : List OptionsItem → Nat → Nat → List (Nat × Nat)
  | [], _, _ => []
  | .group _ os :: rest, currentIndex, index =>
    (currentIndex, index) :: groupStartIndexesAux rest (currentIndex + os.length) (index + 1)
  | .single _ :: rest, currentIndex, index =>
    groupStartIndexesAux rest (currentIndex + 1) (index + 1)

/-- The group-start-index map: keys are flat indices at which a group starts,
values are original-list indices of that group (useMemo over `[options]`). -/
def groupStartIndexes (options : List OptionsItem) : List (Nat × Nat) :=
  groupStartIndexesAux options 0 0

/-- JS-object lookup `groupStartIndexes[i]`: repeated assignments to the same
key overwrite, so the last recorded entry for a key wins. -/
def objLookup (m : List (Nat × Nat)) (k : Nat) : Option Nat :=
  (m.reverse.find? (fun e => e.1 == k)).map (fun e => e.2)

/-- What one virtual row renders (Component.tsx lines 126-144): the optional
group header placed above the row content, and the option rendered from
`flatOptions[virtualRow.index]`. Since `flatOptions` holds only leaf options,
the `!isGroup(option)` guard of the source is always true. -/
structure RenderedRow where
  groupHeader : Option String
  item : Option OptionShape
deriving DecidableEq, Repr

/-- Render of the row at flat index `i`: `options[groupStartIndexes[i]]`
yields the group whose header is rendered above the row content. -/
def renderRow (options : List OptionsItem) (flatOptions : List OptionShape)
    (i : Nat) : RenderedRow :=
  let group := (objLookup (groupStartIndexes options) i).bind fun gi => options.get? gi
  { groupHeader :=
      match group with
      | some (.group label _) => some label
      | _ => none
    item := flatOptions.get? i }

/-- Empty-state condition (Component.tsx line 148): the placeholder is
rendered iff one was supplied and the non-flattened options list is empty. -/
def emptyPlaceholderShown (emptyPlaceholderProvided : Bool)
    (options : List OptionsItem) : Bool :=
  emptyPlaceholderProvided && options.length == 0

/-- A popper modifier (`getModifiers`, popover Component.tsx lines 180-200);
placements are kept as strings. -/
inductive PopperModifier where
  | offset (offset : Int × Int)
  | arrow
  | flip (fallbackPlacements : List String)
  | preventOverflow
deriving DecidableEq, Repr

/-- `getModifiers` (popover Component.tsx lines 180-200). `fallbackPlacements`
is `none` when the prop is absent; JS truthiness makes `if (fallbackPlacements)`
fire for any provided array, an empty one included. -/
def getModifiers (offset : Int × Int) (withArrow preventFlip : Bool)
    (fallbackPlacements : Option (List String)) (preventOverflow : Bool) :
    List PopperModifier :=
  [PopperModifier.offset offset]
  ++ (if withArrow then [PopperModifier.arrow] else [])
  ++ (if preventFlip then [PopperModifier.flip []] else [])
  ++ (match fallbackPlacements with
      | some fps => [PopperModifier.flip fps]
      | none => [])
  ++ (if preventOverflow then [PopperModifier.preventOverflow] else [])

/-- Whether a modifier is a flip modifier. -/
def isFlip : PopperModifier → Bool
  | .flip _ => true
  | _ => false

/-- `updatePopoverWidth` (popover Component.tsx lines 211-215): the handle it
invokes, if any. `updateRef = some cur` means the `update` prop was supplied
and currently stores `cur`; handles are `Nat` ids. -/
def updatePopoverWidth (useAnchorWidth : Bool)
    (updateRef : Option (Option Nat)) : Option Nat :=
  if useAnchorWidth then
    match updateRef with
    | some (some h) => some h
    | _ => none
  else none

/-- Resize-observation effect (popover Component.tsx lines 234-243): which
elements the fresh observer observes, and that its cleanup disconnects the
observer unconditionally. -/
structure ResizeEffect where
  observed : List Nat
  cleanupDisconnects : Bool
deriving DecidableEq, Repr

/-- The resize effect for a given (nullable) anchor element. -/
def popoverResizeEffect (anchorElement : Option Nat) : ResizeEffect :=
  { observed :=
      match anchorElement with
      | some a => [a]
      | none => []
    cleanupDisconnects := true }

/-- Panel width style (popover Component.tsx line 252):
`useAnchorWidth ? referenceElement?.offsetWidth : undefined`. -/
def popoverPanelWidth (useAnchorWidth : Bool)
    (referenceOffsetWidth : Option Nat) : Option Nat :=
  if useAnchorWidth then referenceOffsetWidth else none

/-- Write-once `update` ref effect (popover Component.tsx lines 227-232): the
ref contents after one render, given the current contents and the engine's
`updatePopper` for this render. `none` means the `update` prop was absent. -/
def updateRefEffect (updateRef : Option (Option Nat)) (updatePopper : Option Nat) :
    Option (Option Nat) :=
  match updateRef with
  | none => none
  | some cur =>
    match cur, updatePopper with
    | none, some f => some (some f)
    | _, _ => some cur

/-- The ref contents after a sequence of renders, each with its own
`updatePopper` function produced by the engine. -/
def updateRefAfterRenders (updateRef : Option (Option Nat))
    (fs : List (Option Nat)) : Option (Option Nat) :=
  fs.foldl updateRefEffect updateRef

/-! ## Helper lemmas -/

/-- `flattenOptions` distributes over append. -/
theorem flattenOptions_append (l1 l2 : List OptionsItem) :
    flattenOptions (l1 ++ l2) = flattenOptions l1 ++ flattenOptions l2 := by
  induction l1 with
  | nil => rfl
  | cons a l ih => cases a <;> simp [flattenOptions, ih]

/-- Dropping the length of a left append segment plus `n` drops into the
right segment. -/
theorem drop_length_add {α : Type} (a b : List α) (n : Nat) :
    (a ++ b).drop (a.length + n) = b.drop n := by
  induction a with
  | nil => simp
  | cons x xs ih => simp [Nat.succ_add, ih]

/-- A non-(-1) result of `lastIndexOfI` is a valid index whose element
satisfies the predicate. -/
theorem lastIndexOfI_spec {α : Type} (p : α → Bool) (l : List α)
    (h : lastIndexOfI p l ≠ -1) :
    ∃ k : Nat, lastIndexOfI p l = (k : Int) ∧ ∃ a, l.get? k = some a ∧ p a := by
  induction l with
  | nil => simp [lastIndexOfI] at h
  | cons a as ih =>
    by_cases hr : lastIndexOfI p as = -1
    · by_cases hp : p a
      · exact ⟨0, by simp [lastIndexOfI, hr, hp], a, rfl, hp⟩
      · exact absurd (by simp [lastIndexOfI, hr, hp]) h
    · obtain ⟨k, hk, b, hb, hpb⟩ := ih hr
      refine ⟨k + 1, ?_, b, ?_, hpb⟩
      · simp [lastIndexOfI, hr, hk]
      · simpa using hb

/-- Every entry `(k, j)` produced by the `groupStartIndexes` reduce points at
a group of the remaining options, with `k` the flat index accumulated so far
plus the flat length of the items before that group. -/
theorem groupStartIndexesAux_spec (options : List OptionsItem) (cur idx : Nat) :
    ∀ kv ∈ groupStartIndexesAux options cur idx,
      ∃ j, kv.2 = idx + j ∧
        ∃ label gopts, options.get? j = some (.group label gopts) ∧
          kv.1 = cur + (flattenOptions (options.take j)).length := by
  induction options generalizing cur idx with
  | nil => intro kv hkv; simp [groupStartIndexesAux] at hkv
  | cons item rest ih =>
    intro kv hkv
    cases item with
    | group label os =>
      simp only [groupStartIndexesAux, List.mem_cons] at hkv
      rcases hkv with rfl | hkv
      · exact ⟨0, by simp, label, os, rfl, by simp [flattenOptions]⟩
      · obtain ⟨j, hj, lb, gopts, hget, hk⟩ :=
          ih (cur + os.length) (idx + 1) kv hkv
        refine ⟨j + 1, by omega, lb, gopts, by simpa using hget, ?_⟩
        simp [List.take, flattenOptions_append, flattenOptions, hk]
        omega
    | single o =>
      simp only [groupStartIndexesAux] at hkv
      obtain ⟨j, hj, lb, gopts, hget, hk⟩ := ih (cur + 1) (idx + 1) kv hkv
      refine ⟨j + 1, by omega, lb, gopts, by simpa using hget, ?_⟩
      simp [List.take, flattenOptions, hk]
      omega

/-- If `options.get? j` is a group, the flattened list, after dropping the
flat length of the first `j` items, starts with that group's members. -/
theorem flatten_drop_of_group (options : List OptionsItem) (j : Nat)
    (label : String) (gopts : List OptionShape)
    (hget : options.get? j = some (.group label gopts)) :
    (flattenOptions options).drop (flattenOptions (options.take j)).length
      = gopts ++ flattenOptions (options.drop (j + 1)) := by
  induction options generalizing j with
  | nil => simp at hget
  | cons item rest ih =>
    cases j with
    | zero =>
      simp only [List.get?] at hget
      cases item with
      | single o => simp at hget
      | group lb os =>
        obtain ⟨h1, h2⟩ := by simpa using hget
        subst h1; subst h2
        simp [flattenOptions]
    | succ j =>
      have hget2 : rest.get? j = some (.group label gopts) := by simpa using hget
      have := ih j hget2
      cases item with
      | single o =>
        simpa [List.take, List.drop, flattenOptions] using this
      | group lb os =>
        simp only [List.take, List.drop, flattenOptions, flattenOptions_append,
          List.length_append]
        rw [drop_length_add]
        exact this

/-! ## Claims -/

/-- C1: Cyclic wrap-around. If the previous highlighted index was at or
before the first non-disabled index and the new highlighted index is the
last flat index, a scroll to the last non-disabled index is issued;
symmetrically, if the previous highlighted index was at or after the last
non-disabled index and the new one is 0, a scroll to index 0 is issued.
The boundary indices are computed with the `notDisabled` predicate, so a
non-(-1) last boundary is the flat index of an enabled option (disabled
options are skipped by the boundary computation yet keep their flat index). -/
theorem cyclic_wraparound (flatOptions : List OptionShape) (prev new : Int) :
    (prev ≤ findIndexI notDisabled flatOptions →
      new = (flatOptions.length : Int) - 1 →
      ScrollCommand.mk (lastIndexOfI notDisabled flatOptions) false ∈
        cyclicNavigationScrolls flatOptions prev new) ∧
    (prev ≥ lastIndexOfI notDisabled flatOptions → new = 0 →
      ScrollCommand.mk 0 false ∈ cyclicNavigationScrolls flatOptions prev new) ∧
    (lastIndexOfI notDisabled flatOptions ≠ -1 →
      ∃ k : Nat, lastIndexOfI notDisabled flatOptions = (k : Int) ∧
        ∃ o, flatOptions.get? k = some o ∧ o.disabled = false) := by
  refine ⟨fun h1 h2 => ?_, fun h1 h2 => ?_, fun h => ?_⟩
  · simp [cyclicNavigationScrolls, h1, h2]
  · simp [cyclicNavigationScrolls, h1, h2]
  · obtain ⟨k, hk, o, ho, hp⟩ := lastIndexOfI_spec notDisabled flatOptions h
    exact ⟨k, hk, o, ho, by simpa [notDisabled] using hp⟩

/-- Witness for C1 at options `[A, B, C]`, all enabled: a highlight move
from 0 to 2 issues a wrap scroll to 2; a move from 2 to 0 issues a wrap
scroll to 0; and the last non-disabled boundary, 2, holds an enabled
option. -/
theorem cyclic_wraparound_witness :
    (ScrollCommand.mk 2 false ∈
      cyclicNavigationScrolls
        [⟨"A", false⟩, ⟨"B", false⟩, ⟨"C", false⟩] 0 2) ∧
    (ScrollCommand.mk 0 false ∈
      cyclicNavigationScrolls
        [⟨"A", false⟩, ⟨"B", false⟩, ⟨"C", false⟩] 2 0) ∧
    (∃ k : Nat,
      lastIndexOfI notDisabled [⟨"A", false⟩, ⟨"B", false⟩, ⟨"C", false⟩]
        = (k : Int) ∧
      ∃ o, ([⟨"A", false⟩, ⟨"B", false⟩, ⟨"C", false⟩] :
          List OptionShape).get? k = some o ∧ o.disabled = false) :=
  ⟨(cyclic_wraparound [⟨"A", false⟩, ⟨"B", false⟩, ⟨"C", false⟩] 0 2).1
      (by decide) (by decide),
   (cyclic_wraparound [⟨"A", false⟩, ⟨"B", false⟩, ⟨"C", false⟩] 2 0).2.1
      (by decide) (by decide),
   (cyclic_wraparound [⟨"A", false⟩, ⟨"B", false⟩, ⟨"C", false⟩] 0 0).2.2
      (by decide)⟩

/-- C2: Group flattening and header placement. For options `[Z, G[X, Y]]`
the flattened sequence is `[Z, X, Y]`, the group-start map is exactly
`{1 ↦ 1}` (flat index 1 ↦ original index of G), and the row rendered at flat
index 1 shows G's header above item X. In general every entry of the map
points at a group: its key is the flat length of the items before that
group, so the flattened list at the key starts with the group's members
(the key is the flat index at which the group's first member sits, the
header rendering just before it in that row). The map is a function of the
options list alone, matching its memoisation over `[options]`. -/
theorem group_flattening_and_headers
    (Z X Y : OptionShape) (g : String) (options : List OptionsItem) :
    (flattenOptions [.single Z, .group g [X, Y]] = [Z, X, Y]) ∧
    (groupStartIndexes [.single Z, .group g [X, Y]] = [(1, 1)]) ∧
    (renderRow [.single Z, .group g [X, Y]]
        (flattenOptions [.single Z, .group g [X, Y]]) 1
      = { groupHeader := some g, item := some X }) ∧
    (∀ kv ∈ groupStartIndexes options,
      ∃ label gopts,
        options.get? kv.2 = some (.group label gopts) ∧
        kv.1 = (flattenOptions (options.take kv.2)).length ∧
        (flattenOptions options).drop kv.1
          = gopts ++ flattenOptions (options.drop (kv.2 + 1))) := by
  refine ⟨rfl, rfl, rfl, fun kv hkv => ?_⟩
  obtain ⟨j, hj, label, gopts, hget, hk⟩ :=
    groupStartIndexesAux_spec options 0 0 kv hkv
  have hj0 : kv.2 = j := by omega
  have hk0 : kv.1 = (flattenOptions (options.take j)).length := by
    simpa using hk
  subst hj0
  exact ⟨label, gopts, hget, hk0,
    hk0 ▸ flatten_drop_of_group options kv.2 label gopts hget⟩

/-- Witness for C2 at the concrete options `[Z, G[X, Y]]` and the map entry
`(1, 1)`. -/
theorem group_flattening_and_headers_witness :
    ∃ label gopts,
      ([OptionsItem.single ⟨"Z", false⟩,
          OptionsItem.group "G" [⟨"X", false⟩, ⟨"Y", false⟩]].get? 1
        = some (.group label gopts)) ∧
      (1 = (flattenOptions ([OptionsItem.single ⟨"Z", false⟩,
          OptionsItem.group "G" [⟨"X", false⟩, ⟨"Y", false⟩]].take 1)).length) ∧
      ((flattenOptions [OptionsItem.single ⟨"Z", false⟩,
          OptionsItem.group "G" [⟨"X", false⟩, ⟨"Y", false⟩]]).drop 1
        = gopts ++ flattenOptions ([OptionsItem.single ⟨"Z", false⟩,
            OptionsItem.group "G" [⟨"X", false⟩, ⟨"Y", false⟩]].drop 2)) :=
  (group_flattening_and_headers ⟨"Z", false⟩ ⟨"X", false⟩ ⟨"Y", false⟩ "G"
      [OptionsItem.single ⟨"Z", false⟩,
        OptionsItem.group "G" [⟨"X", false⟩, ⟨"Y", false⟩]]).2.2.2
    (1, 1) (by decide)

/-- C3 counterexample: with `preventFlip = true` and
`fallbackPlacements = ["bottom"]` the modifier list contains BOTH a flip
modifier with an empty fallback list AND a flip modifier with the supplied
list — two flip modifiers, refuting "either one or the other, not both". -/
theorem popover_flip_modifiers_not_exclusive :
    PopperModifier.flip [] ∈ getModifiers (0, 0) false true (some ["bottom"]) true ∧
    PopperModifier.flip ["bottom"] ∈
      getModifiers (0, 0) false true (some ["bottom"]) true ∧
    (getModifiers (0, 0) false true (some ["bottom"]) true).countP isFlip = 2 := by
  refine ⟨?_, ?_, rfl⟩ <;> simp [getModifiers]

/-- C3 (amended): the modifier list always contains the offset modifier;
contains the arrow modifier iff `withArrow`; contains the preventOverflow
modifier iff `preventOverflow` is enabled; and its flip modifiers are
exactly the empty-fallback flip when `preventFlip`, followed by the flip
with the caller-supplied list when `fallbackPlacements` is provided — both
present when both inputs are set. -/
theorem popover_modifier_assembly (o : Int × Int) (withArrow preventFlip : Bool)
    (fallbackPlacements : Option (List String)) (preventOverflow : Bool) :
    PopperModifier.offset o ∈
      getModifiers o withArrow preventFlip fallbackPlacements preventOverflow ∧
    (PopperModifier.arrow ∈
        getModifiers o withArrow preventFlip fallbackPlacements preventOverflow
      ↔ withArrow = true) ∧
    ((getModifiers o withArrow preventFlip fallbackPlacements
        preventOverflow).filter isFlip
      = (if preventFlip then [PopperModifier.flip []] else [])
        ++ (match fallbackPlacements with
            | some fps => [PopperModifier.flip fps]
            | none => [])) ∧
    (PopperModifier.preventOverflow ∈
        getModifiers o withArrow preventFlip fallbackPlacements preventOverflow
      ↔ preventOverflow = true) := by
  cases withArrow <;> cases preventFlip <;> cases preventOverflow <;>
    cases fallbackPlacements <;> simp [getModifiers, isFlip]

/-- C4: the height-invalidation key is the deferred value 1 while at most
one virtual row is rendered, equals the total flat option count as soon as
more than one row is rendered, and (while more than one row is rendered)
changes whenever the total count changes. -/
theorem visible_options_invalidate_key_deferral
    (virtualItemsLength flatLen flatLen2 : Nat) :
    (virtualItemsLength ≤ 1 →
      visibleOptionsInvalidateKey virtualItemsLength flatLen = 1) ∧
    (1 < virtualItemsLength →
      visibleOptionsInvalidateKey virtualItemsLength flatLen = flatLen) ∧
    (1 < virtualItemsLength → flatLen ≠ flatLen2 →
      visibleOptionsInvalidateKey virtualItemsLength flatLen ≠
        visibleOptionsInvalidateKey virtualItemsLength flatLen2) := by
  refine ⟨fun h => ?_, fun h => ?_, fun h hne => ?_⟩
  · simp [visibleOptionsInvalidateKey, Nat.not_lt.mpr h]
  · simp [visibleOptionsInvalidateKey, h]
  · simpa [visibleOptionsInvalidateKey, h] using hne

/-- Witness for C4 at 1 rendered row (key 1), 3 rendered rows with 42
options (key 42), and a count change 42 ≠ 7 flipping the key. -/
theorem visible_options_invalidate_key_deferral_witness :
    visibleOptionsInvalidateKey 1 42 = 1 ∧
    visibleOptionsInvalidateKey 3 42 = 42 ∧
    visibleOptionsInvalidateKey 3 42 ≠ visibleOptionsInvalidateKey 3 7 :=
  ⟨(visible_options_invalidate_key_deferral 1 42 7).1 (by decide),
   (visible_options_invalidate_key_deferral 3 42 7).2.1 (by decide),
   (visible_options_invalidate_key_deferral 3 42 7).2.2 (by decide) (by decide)⟩

/-- C5: with an empty (non-flattened) options list the placeholder is
rendered and the flattened list is empty, so the virtualized body has zero
rows; with a non-empty options list the placeholder is never rendered. -/
theorem empty_state_placeholder (options : List OptionsItem) :
    (options = [] →
      flattenOptions options = [] ∧ emptyPlaceholderShown true options = true) ∧
    (options ≠ [] → ∀ ep : Bool, emptyPlaceholderShown ep options = false) := by
  constructor
  · rintro rfl; exact ⟨rfl, rfl⟩
  · intro h ep
    cases options with
    | nil => exact absurd rfl h
    | cons a as => simp [emptyPlaceholderShown]

/-- Witness for C5 at the empty options list and at a singleton list. -/
theorem empty_state_placeholder_witness :
    (flattenOptions [] = [] ∧ emptyPlaceholderShown true [] = true) ∧
    emptyPlaceholderShown true [OptionsItem.single ⟨"Z", false⟩] = false :=
  ⟨(empty_state_placeholder []).1 rfl,
   (empty_state_placeholder [OptionsItem.single ⟨"Z", false⟩]).2
      (List.cons_ne_nil _ _) true⟩

/-- C6: on every closed→open transition of the `open` flag, the effect
issues exactly one scroll command, to the current highlighted index with
`align: end`. -/
theorem open_transition_scroll (highlightedIndex : Int) :
    openEffectScrolls false true highlightedIndex
      = [⟨highlightedIndex, true⟩] := by
  simp [openEffectScrolls]

/-- C7: when the highlighted index changes to a value other than -1 that is
not among the rendered virtual rows, the highlight-follow effect issues a
scroll to that index with `align: end`; when the new index is already among
the rendered rows, it issues nothing. -/
theorem highlight_follow_scroll (virtualItemIndexes : List Nat)
    (prev new : Int) (hchange : prev ≠ new) (hsent : new ≠ -1) :
    ((¬ ∃ i ∈ virtualItemIndexes, (i : Int) = new) →
      highlightFollowScrolls virtualItemIndexes prev new = [⟨new, true⟩]) ∧
    ((∃ i ∈ virtualItemIndexes, (i : Int) = new) →
      highlightFollowScrolls virtualItemIndexes prev new = []) := by
  constructor
  · intro hnot
    have hany : virtualItemIndexes.any (fun i => (i : Int) == new) = false := by
      rw [Bool.eq_false_iff]
      intro hb
      obtain ⟨i, hi, he⟩ := List.any_eq_true.mp hb
      exact hnot ⟨i, hi, by simpa using he⟩
    simp [highlightFollowScrolls, hchange, hsent, hany]
  · intro hex
    have hany : virtualItemIndexes.any (fun i => (i : Int) == new) = true := by
      simp only [List.any_eq_true, beq_iff_eq]
      exact hex
    simp [highlightFollowScrolls, hchange, hsent, hany]

/-- Witness for C7: with rendered rows `[0, 1, 2]`, a change from 0 to 5
scrolls to 5; a change from 0 to 2 issues nothing. -/
theorem highlight_follow_scroll_witness :
    highlightFollowScrolls [0, 1, 2] 0 5 = [⟨5, true⟩] ∧
    highlightFollowScrolls [0, 1, 2] 0 2 = [] :=
  ⟨(highlight_follow_scroll [0, 1, 2] 0 5 (by decide) (by decide)).1
      (by decide),
   (highlight_follow_scroll [0, 1, 2] 0 2 (by decide) (by decide)).2
      (by decide)⟩

/-- C8: the resize effect observes exactly the anchor element when one is
set and nothing when it is null, and its cleanup disconnects the observer;
with `useAnchorWidth` enabled and a stored recompute handle,
`updatePopoverWidth` invokes that handle; and with `useAnchorWidth` enabled
the rendered panel width equals the reference element's measured
`offsetWidth`. -/
theorem popover_resize_width_resync (a h w : Nat) :
    popoverResizeEffect (some a)
      = { observed := [a], cleanupDisconnects := true } ∧
    popoverResizeEffect none
      = { observed := [], cleanupDisconnects := true } ∧
    updatePopoverWidth true (some (some h)) = some h ∧
    popoverPanelWidth true (some w) = some w :=
  ⟨rfl, rfl, rfl, rfl⟩

/-- C9: the open-transition effect has no "-1" guard: opening with no
highlight still issues a scroll to index -1 with `align: end`, whereas the
highlight-follow effect never scrolls when the new index is -1. -/
theorem open_scroll_no_highlight_guard :
    openEffectScrolls false true (-1) = [⟨-1, true⟩] ∧
    ∀ (virtualItemIndexes : List Nat) (prev : Int),
      highlightFollowScrolls virtualItemIndexes prev (-1) = [] := by
  constructor
  · simp [openEffectScrolls]
  · intro vis prev
    by_cases hp : prev = -1 <;> simp [highlightFollowScrolls, hp]

/-- C10: the `update` ref is written only when unset: an unset supplied ref
receives the engine's recompute function, a ref already holding a handle is
left unchanged by any later render, and over any sequence of renders with
arbitrary engine functions a stored handle is never replaced (an absent
`update` prop is never written). -/
theorem update_ref_write_once (h : Nat) (g : Option Nat) (f : Nat)
    (fs : List (Option Nat)) :
    updateRefEffect (some none) (some f) = some (some f) ∧
    updateRefEffect (some (some h)) g = some (some h) ∧
    updateRefEffect none g = none ∧
    updateRefAfterRenders (some (some h)) fs = some (some h) := by
  refine ⟨rfl, ?_, ?_, ?_⟩
  · cases g <;> rfl
  · cases g <;> rfl
  · induction fs with
    | nil => rfl
    | cons b bs ih =>
      have hb : updateRefEffect (some (some h)) b = some (some h) := by
        cases b <;> rfl
      simpa [updateRefAfterRenders, hb] using ih

end CoreComponents
